import Mathlib

/-!
Shallow embedding of the reward reconciliation and eligibility-filtering
pipeline of the heurist-network/token-airdrop repository.

Main sources:
* `s2-airdrop/miner-checker/filter_and_update_rewards.py`
  (`is_valid_ethereum_address`, `load_unique_addresses`, `load_miner_stats`,
  `process_miner_rewards`);
* `s2-airdrop/unique-addresses-collector/collect_unique_addresses.py` (`main`);
* `filter_csv.py` (`filter_airdrop_data`).

Modelling conventions:
* Python floats are modelled as rationals (`ℚ`).  Every CSV cell the code
  reads with `float(...)` is modelled as a `Cell`: the raw text of the cell
  together with its parsed numeric value, so both the textual behaviour
  (what `csv.DictWriter` writes back) and the numeric behaviour (what the
  comparisons and sums see) are visible.
* `str(x)` applied to a Python float is modelled by `pyFloatStr`, which
  renders an integral value `n` as `"n.0"` and a non-integral value by its
  decimal expansion (exact whenever the expansion terminates within 17
  fractional digits, which covers the decimal data the pipeline handles).
* Exceptions (`KeyError` from `stats['totalTokens']` when the key is
  absent) are modelled with `Except Unit`.
* File writing is modelled by the list of rows the `csv.DictWriter` emits;
  opening the file is not modelled, only its written content.
-/

namespace TokenAirdrop

/-- One hexadecimal character, the character class `[a-fA-F0-9]` of
`ETH_ADDRESS_PATTERN` (filter_and_update_rewards.py line 8). -/
def isHexChar (c : Char) : Bool :=
  (('a' ≤ c) && (c ≤ 'f')) || (('A' ≤ c) && (c ≤ 'F')) || (('0' ≤ c) && (c ≤ '9'))

/-- The body `[a-fA-F0-9]{40}` of the address pattern: exactly 40 hex
characters. -/
def hexBody (cs : List Char) : Bool :=
  cs.length == 40 && cs.all isHexChar

/-- The function `is_valid_ethereum_address` (filter_and_update_rewards.py lines 8-12):
`bool(re.compile(r'^0x[a-fA-F0-9]\x7b40\x7d$').match(address))`.
Python `re` semantics: `match` anchors at the start of the string, and `$`
(without `re.MULTILINE`) matches at the end of the string **or just before a
newline at the end of the string**, so the pattern also accepts a body of 40
hex characters followed by one final `'\n'`. -/
def isValidEthereumAddress (s : String) : Bool :=
  (s.data.take 2 == ['0', 'x']) &&
    (hexBody (s.data.drop 2) ||
      ((s.data.drop 2).getLast? == some '\n' && hexBody (s.data.drop 2).dropLast))

/-- Python `str.lower()` restricted to the ASCII range the address data
uses. -/
def lowerString (s : String) : String := String.mk (s.data.map Char.toLower)

/-- The decimal digit character for `n < 10`. -/
def digitChar (n : Nat) : Char := Char.ofNat (48 + n)

/-- Decimal expansion of a fractional part `0 ≤ x < 1`, at most `fuel`
digits, stopping early when the remainder reaches zero. -/
def fracDigits : Nat → ℚ → List Char
  | 0, _ => []
  | fuel + 1, x =>
    if x = 0 then []
    else
      let d : Int := (x * 10).num / ((x * 10).den : Int)
      digitChar d.toNat :: fracDigits fuel (x * 10 - (d : ℚ))

/-- Python `str(x)` for a float `x`, modelled on `ℚ`: an integral value `n`
renders as `"n.0"`, a non-integral value as sign, integer part, `'.'` and
the decimal expansion of the fractional part (exact when it terminates
within 17 digits, the precision `repr` of a CPython float uses). -/
def pyFloatStr (q : ℚ) : String :=
  let sign := if q < 0 then "-" else ""
  let a := if q < 0 then -q else q
  let i : Int := a.num / (a.den : Int)
  let frac : ℚ := a - (i : ℚ)
  if frac = 0 then sign ++ toString i ++ ".0"
  else sign ++ toString i ++ "." ++ String.mk (fracDigits 17 frac)

/-- A CSV cell: the raw text stored in the row dictionary, paired with the
numeric value Python's `float(...)` parses from it. -/
structure Cell where
  text : String
  val : ℚ
deriving DecidableEq

/-- One row of the input rewards CSV (a `csv.DictReader` dictionary):
`Address`, `S2 waifu_reward_tokens`, `S2 llama_reward_tokens`,
`S2 Total Base Tokens`, and whatever further columns the file carries
(`extra`, kept as raw key/value text). -/
structure Row where
  address : String
  waifu : Cell
  llama : Cell
  total : Cell
  extra : List (String × String)
deriving DecidableEq

/-- One remote miner-stats JSON object (top-miner-stats JSON): the two
numeric fields the pipeline reads, each possibly absent. -/
structure MinerStat where
  revisedTokens : Option ℚ
  totalTokens : Option ℚ
deriving DecidableEq

/-- Line 68 of filter_and_update_rewards.py:
`float(stats['revisedTokens']) if 'revisedTokens' in stats else
float(stats['totalTokens'])`.  When `revisedTokens` is absent the code
subscripts `totalTokens` unconditionally, so a record with neither field
raises `KeyError` (modelled as `Except.error ()`). -/
def jsonTotalTokens (st : MinerStat) : Except Unit ℚ :=
  match st.revisedTokens with
  | some v => Except.ok v
  | none =>
    match st.totalTokens with
    | some v => Except.ok v
    | none => Except.error ()

/-- Step 3 of `process_miner_rewards` (lines 63-91) for one row: with no
remote record the row passes through unchanged; with a remote record whose
figure `j` satisfies `j >= csv_total` the row is also kept as is, and
otherwise the row is copied with only `S2 Total Base Tokens` replaced by
`str(j)`. -/
def reconcileRow (remote : Option MinerStat) (row : Row) : Except Unit Row :=
  match remote with
  | none => Except.ok row
  | some st =>
    match jsonTotalTokens st with
    | Except.error e => Except.error e
    | Except.ok j =>
      if j ≥ row.total.val then Except.ok row
      else Except.ok { row with total := { text := pyFloatStr j, val := j } }

/-- Loading step `load_unique_addresses` (lines 14-21): every address of the exclusion
CSV, lower-cased. -/
def loadUniqueAddresses (raw : List String) : List String := raw.map lowerString

/-- Loading step `load_miner_stats` (lines 23-29): a dictionary keyed by lower-cased
address; on duplicate keys the later record overwrites the earlier one,
hence the lookup over the reversed association list. -/
def loadMinerStats (items : List (String × MinerStat)) : String → Option MinerStat :=
  fun addr => ((items.map (fun p => (lowerString p.1, p.2))).reverse).lookup addr

/-- The row loop of `process_miner_rewards` (lines 51-91).  Produces the
`processed_data` list together with the three running totals the loop
accumulates (lines 43-45, 73-75, 83-85, 89-91); the first error raised by
a remote lookup aborts the run.  In every branch the waifu and llama
accumulators read the original row, and the base accumulator reads the
total the appended row carries (the CSV value or the JSON value). -/
def processRows (uniq : List String) (statsOf : String → Option MinerStat) :
    List Row → Except Unit (List Row × ℚ × ℚ × ℚ)
  | [] => Except.ok ([], 0, 0, 0)
  | row :: rest =>
    let addr := lowerString row.address
    if isValidEthereumAddress addr then
      if uniq.contains addr then
        processRows uniq statsOf rest
      else
        match reconcileRow (statsOf addr) row with
        | Except.error e => Except.error e
        | Except.ok row2 =>
          match processRows uniq statsOf rest with
          | Except.error e => Except.error e
          | Except.ok (rows, w, l, t) =>
            Except.ok (row2 :: rows, w + row.waifu.val, l + row.llama.val, t + row2.total.val)
    else
      processRows uniq statsOf rest

/-- Step 4 (line 94): keep only rows with
`float(row['S2 Total Base Tokens']) >= 1`. -/
def filteredData (rows : List Row) : List Row :=
  rows.filter (fun r => decide ((1 : ℚ) ≤ r.total.val))

/-- Line 97: the waifu column re-summed over a row list. -/
def sumWaifu (rows : List Row) : ℚ := (rows.map (fun r => r.waifu.val)).sum

/-- Line 98: the llama column re-summed over a row list. -/
def sumLlama (rows : List Row) : ℚ := (rows.map (fun r => r.llama.val)).sum

/-- Line 99: the base-token column re-summed over a row list. -/
def sumTotal (rows : List Row) : ℚ := (rows.map (fun r => r.total.val)).sum

/-- One row of the written output file: the header line, a data row, the
blank separator row (all fields empty, line 110-111), or the TOTAL row
(lines 114-120) carrying the address label and the three rendered sums. -/
inductive OutRow where
  | header
  | data (r : Row)
  | blank
  | totalRow (address waifu llama total : String)
deriving DecidableEq

/-- The outcome the caller observes: either the file content was written
(lines 103-125) or the empty case was reported (line 127,
`"No data to write."`). -/
inductive Outcome where
  | written
  | noData
deriving DecidableEq

/-- The output stage (lines 102-127): with surviving rows, write the
header, the rows, a blank row, and the TOTAL row whose three figures are
`str(...)` of the totals re-summed over the surviving rows; with no
surviving rows, write nothing and report the empty outcome. -/
def writeOutput (filtered : List Row) : List OutRow × Outcome :=
  match filtered with
  | [] => ([], Outcome.noData)
  | _ :: _ =>
    (OutRow.header :: (filtered.map OutRow.data ++
      [OutRow.blank,
       OutRow.totalRow "TOTAL" (pyFloatStr (sumWaifu filtered)) (pyFloatStr (sumLlama filtered))
         (pyFloatStr (sumTotal filtered))]),
     Outcome.written)

/-- The pipeline `process_miner_rewards` (lines 31-127) end to end: load the exclusion
list and the stats index, run the row loop, apply the threshold filter, and
write the output.  The running totals of the loop are discarded: lines
96-99 recompute all three sums from the filtered list before writing. -/
def processMinerRewards (uniqueRaw : List String) (statsRaw : List (String × MinerStat))
    (rows : List Row) : Except Unit (List OutRow × Outcome) :=
  match processRows (loadUniqueAddresses uniqueRaw) (loadMinerStats statsRaw) rows with
  | Except.error e => Except.error e
  | Except.ok (processed, _, _, _) => Except.ok (writeOutput (filteredData processed))

/-- The set of records that survive the whole filter chain (validity,
exclusion, reconciliation, threshold), before the output stage. -/
def survivors (uniq : List String) (statsOf : String → Option MinerStat)
    (rows : List Row) : Except Unit (List Row) :=
  match processRows uniq statsOf rows with
  | Except.error e => Except.error e
  | Except.ok (processed, _, _, _) => Except.ok (filteredData processed)

/-- Modelled from the spec: the early all-zero short-circuit guard of
§4.5 — "candidates with all-zero category values and all-zero season-base
totals are dropped before reconciliation is even attempted".  The
repository's own early filter (`filter_airdrop_data` in filter_csv.py)
operates on the season-1 table, whose columns differ from the season-2
pipeline modelled here, so the guard is stated on the season-2 row in the
spec's words: keep a row iff some reward figure is non-zero. -/
def hasAnyNonzeroReward (r : Row) : Bool :=
  !(decide (r.waifu.val = 0) && decide (r.llama.val = 0) && decide (r.total.val = 0))

/-- The leading characters of a cell up to (excluding) its first comma;
the whole cell when it has no comma.  This is `cell.split(',')[0]`. -/
def takeUntilComma : List Char → List Char
  | [] => []
  | c :: cs => if c == ',' then [] else c :: takeUntilComma cs

/-- Pandas `df[0].str.split(',', expand=True)[0]` applied to one cell
(collect_unique_addresses.py line 26): only the part before the first
comma. -/
def splitFirstComponent (cell : String) : String := String.mk (takeUntilComma cell.data)

/-- Lines 23-28 of collect_unique_addresses.py for one source: when any
first-column cell contains a comma, each cell is replaced by its first
comma-separated component; otherwise the cells are taken as they are.
(A cell without a comma is its own first component, so both branches take
the text before the first comma.) -/
def sourceAddrs (cells : List String) : List String :=
  if cells.any (fun c => c.data.any (fun ch => ch == ',')) then cells.map splitFirstComponent
  else cells

/-- The collector `main` of collect_unique_addresses.py, lines 14-31: the union over all
sources of the extracted, lower-cased address strings. -/
def buildExclusionSet (sources : List (List String)) : Finset String :=
  sources.foldl (fun acc cells => acc ∪ ((sourceAddrs cells).map lowerString).toFinset) ∅

/-- Convenience constructor for a concrete input row. -/
def mkRow (addr : String) (w l : ℚ) (ttext : String) (t : ℚ) : Row :=
  { address := addr, waifu := { text := "", val := w }, llama := { text := "", val := l },
    total := { text := ttext, val := t }, extra := [] }

/-- A well-formed sample address: `0x` followed by forty `a`. -/
def sampleAddr : String := "0xaaaaaaaaaaaaaaaaaaaaaaaaaaaaaaaaaaaaaaaa"

/-! ## Helper lemmas -/

lemma min_of_ge {a j : ℚ} (h : j ≥ a) : min a j = a := min_eq_left h

lemma min_of_lt {a j : ℚ} (h : j < a) : min a j = j := min_eq_right h.le

/-! ## Claim C1 -/

/-- Claim C1, counterexample.  The claim states that reconciliation keeps
the larger of the local and remote totals, and in particular that local 100
with remote 80 yields 100 and local 80 with remote 100 yields 100.  On the
code (line 71: `if json_total_tokens >= csv_total_tokens`, keep the CSV
row; otherwise overwrite with the JSON value), both concrete cases yield
80, not 100. -/
theorem reconcileLargerWinsCounterexample :
    ((reconcileRow (some ⟨none, some 80⟩) (mkRow sampleAddr 2 3 "100" 100)).map
        (fun r => r.total.val)) = Except.ok 80 ∧
    ((reconcileRow (some ⟨none, some 100⟩) (mkRow sampleAddr 2 3 "80" 80)).map
        (fun r => r.total.val)) = Except.ok 80 ∧
    (80 : ℚ) ≠ 100 :=
  ⟨rfl, rfl, by decide⟩

/-- Claim C1, amended: for every candidate with a matching remote record
whose figure resolves to `j`, the reconciled base-token total is the
*smaller* of the local total and `j`: when `j` is greater than or equal to
the local total the local row is kept unchanged, and when `j` is strictly
smaller the row's total is overwritten with `j`. -/
theorem reconcileKeepsSmallerTotal (st : MinerStat) (row : Row) (j : ℚ)
    (hj : jsonTotalTokens st = Except.ok j) :
    (j ≥ row.total.val → reconcileRow (some st) row = Except.ok row) ∧
    (j < row.total.val →
      reconcileRow (some st) row =
        Except.ok { row with total := { text := pyFloatStr j, val := j } }) ∧
    ∀ r2, reconcileRow (some st) row = Except.ok r2 → r2.total.val = min row.total.val j := by
  refine ⟨fun h => by simp [reconcileRow, hj, h], fun h => by simp [reconcileRow, hj, not_le.mpr h],
    fun r2 h2 => ?_⟩
  by_cases hc : j ≥ row.total.val
  · simp only [reconcileRow, hj, hc, if_pos, Except.ok.injEq] at h2
    rw [← h2, min_of_ge hc]
  · simp only [reconcileRow, hj, hc, if_neg, ite_false, Except.ok.injEq] at h2
    rw [← h2, min_of_lt (lt_of_not_ge hc)]

/-- Witness for `reconcileKeepsSmallerTotal` at local total 100 against
remote total 80: the row is overwritten with 80. -/
theorem reconcileKeepsSmallerTotalWitness :
    reconcileRow (some ⟨none, some 80⟩) (mkRow sampleAddr 2 3 "100" 100) =
      Except.ok { mkRow sampleAddr 2 3 "100" 100 with
        total := { text := pyFloatStr 80, val := 80 } } :=
  (reconcileKeepsSmallerTotal ⟨none, some 80⟩ (mkRow sampleAddr 2 3 "100" 100) 80 rfl).2.1
    (by decide)

/-! ## Claim C2 -/

/-- Claim C2, counterexample.  The claim states that a matching remote
record with neither `revisedTokens` nor `totalTokens` behaves as if no
remote record existed (local values pass through, no exception).  On the
code (line 68), the subscript `stats['totalTokens']` raises `KeyError`
instead: reconciliation produces the error outcome, not the unchanged
row. -/
theorem missingRemoteFigureCounterexample :
    reconcileRow (some ⟨none, none⟩) (mkRow sampleAddr 2 3 "5" 5) = Except.error () ∧
    reconcileRow (some ⟨none, none⟩) (mkRow sampleAddr 2 3 "5" 5) ≠
      Except.ok (mkRow sampleAddr 2 3 "5" 5) := by
  refine ⟨rfl, ?_⟩
  rw [show reconcileRow (some ⟨none, none⟩) (mkRow sampleAddr 2 3 "5" 5) =
        Except.error () from rfl]
  simp

/-- Claim C2, amended: for every candidate whose matching remote record has
neither a `revisedTokens` field nor a `totalTokens` field, reconciliation
raises (`KeyError` on `stats['totalTokens']`, modelled as the error
outcome) rather than passing the candidate's local values through. -/
theorem missingRemoteFigureRaises (st : MinerStat) (row : Row)
    (h1 : st.revisedTokens = none) (h2 : st.totalTokens = none) :
    reconcileRow (some st) row = Except.error () := by
  obtain ⟨r1, t1⟩ := st
  have hr : r1 = none := h1
  have ht : t1 = none := h2
  subst hr
  subst ht
  rfl

/-- Witness for `missingRemoteFigureRaises` on a concrete row and a remote
record with both fields absent. -/
theorem missingRemoteFigureRaisesWitness :
    reconcileRow (some ⟨none, none⟩) (mkRow sampleAddr 2 3 "5" 5) = Except.error () :=
  missingRemoteFigureRaises ⟨none, none⟩ (mkRow sampleAddr 2 3 "5" 5) rfl rfl

/-! ## Claim C5 -/

/-- Claim C5: reconciliation never changes any field of a candidate record
except its base-token total.  With no matching remote record the row passes
through entirely unchanged; with a matching remote record the address, the
waifu and llama cells (text and value) and all extra columns equal the
candidate's own in both branches of the comparison. -/
theorem reconcilePreservesOtherFields (remote : Option MinerStat) (row r2 : Row)
    (h : reconcileRow remote row = Except.ok r2) :
    r2.address = row.address ∧ r2.waifu = row.waifu ∧ r2.llama = row.llama ∧
    r2.extra = row.extra ∧ (remote = none → r2 = row) := by
  cases remote with
  | none =>
    injection h with h
    subst h
    exact ⟨rfl, rfl, rfl, rfl, fun _ => rfl⟩
  | some st =>
    simp only [reconcileRow] at h
    cases hj : jsonTotalTokens st with
    | error e => rw [hj] at h; exact absurd h (by simp)
    | ok j =>
      rw [hj] at h
      by_cases hc : j ≥ row.total.val
      · simp only [hc, if_pos, Except.ok.injEq] at h
        subst h
        exact ⟨rfl, rfl, rfl, rfl, fun hn => by cases hn⟩
      · simp only [hc, if_neg, ite_false, Except.ok.injEq] at h
        subst h
        exact ⟨rfl, rfl, rfl, rfl, fun hn => by cases hn⟩

/-- Witness for `reconcilePreservesOtherFields` on a concrete row whose
total is overwritten by a smaller remote figure: every other field is
preserved. -/
theorem reconcilePreservesOtherFieldsWitness :
    ({ mkRow sampleAddr 2 3 "5" 5 with
        total := { text := pyFloatStr 4, val := 4 } } : Row).address =
      (mkRow sampleAddr 2 3 "5" 5).address ∧
    ({ mkRow sampleAddr 2 3 "5" 5 with
        total := { text := pyFloatStr 4, val := 4 } } : Row).waifu =
      (mkRow sampleAddr 2 3 "5" 5).waifu ∧
    ({ mkRow sampleAddr 2 3 "5" 5 with
        total := { text := pyFloatStr 4, val := 4 } } : Row).llama =
      (mkRow sampleAddr 2 3 "5" 5).llama ∧
    ({ mkRow sampleAddr 2 3 "5" 5 with
        total := { text := pyFloatStr 4, val := 4 } } : Row).extra =
      (mkRow sampleAddr 2 3 "5" 5).extra ∧
    ((some ⟨some 4, none⟩ : Option MinerStat) = none →
      ({ mkRow sampleAddr 2 3 "5" 5 with
          total := { text := pyFloatStr 4, val := 4 } } : Row) = mkRow sampleAddr 2 3 "5" 5) :=
  reconcilePreservesOtherFields (some ⟨some 4, none⟩) (mkRow sampleAddr 2 3 "5" 5)
    { mkRow sampleAddr 2 3 "5" 5 with total := { text := pyFloatStr 4, val := 4 } } rfl

/-! ## Claim C3 -/

lemma takeTwoDecomp {cs : List Char} (h : cs.take 2 = ['0', 'x']) :
    ∃ rest, cs = '0' :: 'x' :: rest := by
  cases cs with
  | nil => simp at h
  | cons a t =>
    cases t with
    | nil => simp [List.take] at h
    | cons b u =>
      simp only [List.take_succ_cons, List.take_zero, List.cons.injEq] at h
      obtain ⟨ha, hb, _⟩ := h
      subst ha
      subst hb
      exact ⟨u, rfl⟩

/-- Claim C3, counterexample.  The claim states that every string of total
length 43 is rejected.  Python `$` also matches just before a newline at
the end of the string, so the 43-character string made of a valid
42-character address plus one trailing newline is accepted. -/
theorem addressTrailingNewlineCounterexample :
    isValidEthereumAddress (sampleAddr ++ "\n") = true ∧
    (sampleAddr ++ "\n").length = 43 := by
  constructor <;> decide

/-- Claim C3, amended: `is_valid_ethereum_address` returns true iff the
string is the literal prefix `0x` followed by exactly 40 hexadecimal
characters, **optionally followed by one trailing newline** (total length
42, or 43 with the newline); the empty string, other lengths, non-hex
characters and a missing prefix are all rejected, and the function is
total (never raises). -/
theorem addressValidationCharacterization (s : String) :
    isValidEthereumAddress s = true ↔
      ∃ body : List Char, body.length = 40 ∧ body.all isHexChar = true ∧
        (s.data = '0' :: 'x' :: body ∨ s.data = '0' :: 'x' :: (body ++ ['\n'])) := by
  constructor
  · intro h
    simp only [isValidEthereumAddress, Bool.and_eq_true, Bool.or_eq_true, beq_iff_eq] at h
    obtain ⟨h2, h3⟩ := h
    obtain ⟨rest, hrest⟩ := takeTwoDecomp h2
    rw [hrest] at h3
    simp only [List.drop_succ_cons, List.drop_zero] at h3
    rcases h3 with h3 | h3
    · simp only [hexBody, Bool.and_eq_true, beq_iff_eq] at h3
      exact ⟨rest, h3.1, h3.2, Or.inl hrest⟩
    · obtain ⟨hlast, hbody⟩ := h3
      simp only [hexBody, Bool.and_eq_true, beq_iff_eq] at hbody
      refine ⟨rest.dropLast, hbody.1, hbody.2, Or.inr ?_⟩
      rw [hrest, List.dropLast_append_getLast? '\n' hlast]
  · intro ⟨body, hlen, hall, hcase⟩
    rcases hcase with hcase | hcase <;>
      simp [isValidEthereumAddress, hcase, hexBody, hlen, hall, List.dropLast_concat]

/-! ## Claim C4 -/

/-- Claim C4 (confirmed): the eligibility threshold on the reconciled
base-token total is inclusive at 1 — a record survives the threshold filter
iff its final base-token value is at least 1; a record with total exactly
1.0 is kept and a record with total 0.999999 is dropped. -/
theorem thresholdInclusiveAtOne :
    (∀ (rows : List Row) (r : Row),
      r ∈ filteredData rows ↔ r ∈ rows ∧ (1 : ℚ) ≤ r.total.val) ∧
    filteredData [mkRow sampleAddr 0 0 "1.0" 1] = [mkRow sampleAddr 0 0 "1.0" 1] ∧
    filteredData [mkRow sampleAddr 0 0 "0.999999" 0.999999] = [] := by
  refine ⟨fun rows r => ?_, ?_, ?_⟩
  · simp [filteredData, List.mem_filter]
  · simp [filteredData, List.filter, mkRow]
  · have h : ¬ ((1 : ℚ) ≤ 0.999999) := by norm_num
    simp [filteredData, List.filter, mkRow, h]

/-! ## Output-stage helpers and claims C6, C8, C10 -/

lemma processMinerRewards_ok {u : List String} {m : List (String × MinerStat)}
    {rows processed : List Row} {w l t : ℚ}
    (hp : processRows (loadUniqueAddresses u) (loadMinerStats m) rows =
      Except.ok (processed, w, l, t)) :
    processMinerRewards u m rows = Except.ok (writeOutput (filteredData processed)) := by
  unfold processMinerRewards
  rw [hp]

/-- Claim C6 (confirmed): the three aggregate sums in the output are the
sums over exactly the records that survived the threshold filter — the
running totals `w`, `l`, `t` accumulated before filtering are discarded
(they are arbitrary in this statement and absent from the conclusion) —
and the output is the surviving records in arrival order, then one blank
row, then a synthetic row whose address field is literally `TOTAL`
carrying the three sums. -/
theorem aggregateTotalsRecomputedAfterFilter (u : List String)
    (m : List (String × MinerStat)) (rows processed : List Row) (w l t : ℚ)
    (hp : processRows (loadUniqueAddresses u) (loadMinerStats m) rows =
      Except.ok (processed, w, l, t))
    (hne : filteredData processed ≠ []) :
    processMinerRewards u m rows = Except.ok
      (OutRow.header :: ((filteredData processed).map OutRow.data ++
        [OutRow.blank,
         OutRow.totalRow "TOTAL" (pyFloatStr (sumWaifu (filteredData processed)))
           (pyFloatStr (sumLlama (filteredData processed)))
           (pyFloatStr (sumTotal (filteredData processed)))]),
       Outcome.written) := by
  obtain ⟨r, rs, hf⟩ : ∃ r rs, filteredData processed = r :: rs := by
    cases hc : filteredData processed with
    | nil => exact absurd hc hne
    | cons a b => exact ⟨a, b, rfl⟩
  rw [processMinerRewards_ok hp, hf]
  rfl

/-- Witness for `aggregateTotalsRecomputedAfterFilter`: a single surviving
candidate row produces the row, the blank row and the TOTAL row. -/
theorem aggregateTotalsRecomputedAfterFilterWitness :
    processMinerRewards [] [] [mkRow sampleAddr 2 3 "5" 5] = Except.ok
      (OutRow.header :: ((filteredData [mkRow sampleAddr 2 3 "5" 5]).map OutRow.data ++
        [OutRow.blank,
         OutRow.totalRow "TOTAL" (pyFloatStr (sumWaifu (filteredData [mkRow sampleAddr 2 3 "5" 5])))
           (pyFloatStr (sumLlama (filteredData [mkRow sampleAddr 2 3 "5" 5])))
           (pyFloatStr (sumTotal (filteredData [mkRow sampleAddr 2 3 "5" 5])))]),
       Outcome.written) :=
  aggregateTotalsRecomputedAfterFilter [] [] [mkRow sampleAddr 2 3 "5" 5]
    [mkRow sampleAddr 2 3 "5" 5] (0 + 2) (0 + 3) (0 + 5) rfl (by decide)

/-- Claim C8 (confirmed): when the filtering stage removes every candidate,
the pipeline terminates normally (an `Except.ok` outcome, no exception),
reports the empty outcome, and writes no output content — no rows and no
header. -/
theorem emptyResultReported (u : List String) (m : List (String × MinerStat))
    (rows processed : List Row) (w l t : ℚ)
    (hp : processRows (loadUniqueAddresses u) (loadMinerStats m) rows =
      Except.ok (processed, w, l, t))
    (he : filteredData processed = []) :
    processMinerRewards u m rows = Except.ok ([], Outcome.noData) := by
  rw [processMinerRewards_ok hp, he]
  rfl

/-- Witness for `emptyResultReported`: one candidate with total 0 is
processed, then dropped by the threshold, leaving an empty output. -/
theorem emptyResultReportedWitness :
    processMinerRewards [] [] [mkRow sampleAddr 2 3 "0" 0] =
      Except.ok ([], Outcome.noData) :=
  emptyResultReported [] [] [mkRow sampleAddr 2 3 "0" 0]
    [mkRow sampleAddr 2 3 "0" 0] (0 + 2) (0 + 3) (0 + 0) rfl (by decide)

/-- Claim C10 (confirmed): a row whose total is overridden gets the Python
float rendering `str(json_total_tokens)` as its new cell text (a remote
integer 80 renders as the string `"80.0"`), a row that passes through
keeps every field's original input text verbatim, and the TOTAL row fields
are float renderings of the three sums; the rendering `"80.0"` differs
from an input text such as `"80"` even though the numeric values are
equal. -/
theorem overrideTextRendering (st : MinerStat) (row : Row) (j : ℚ)
    (hj : jsonTotalTokens st = Except.ok j) :
    (j < row.total.val →
      reconcileRow (some st) row =
        Except.ok { row with total := { text := pyFloatStr j, val := j } }) ∧
    (j ≥ row.total.val → reconcileRow (some st) row = Except.ok row) ∧
    pyFloatStr 80 = "80.0" ∧ "80" ≠ pyFloatStr 80 ∧
    (∀ filtered : List Row, filtered ≠ [] →
      (writeOutput filtered).1 = OutRow.header :: (filtered.map OutRow.data ++
        [OutRow.blank,
         OutRow.totalRow "TOTAL" (pyFloatStr (sumWaifu filtered))
           (pyFloatStr (sumLlama filtered)) (pyFloatStr (sumTotal filtered))])) := by
  have h80 : pyFloatStr 80 = "80.0" := by
    unfold pyFloatStr
    norm_num
    rfl
  refine ⟨fun h => by simp [reconcileRow, hj, not_le.mpr h],
    fun h => by simp [reconcileRow, hj, h], h80, by rw [h80]; decide,
    fun filtered hne => ?_⟩
  cases hc : filtered with
  | nil => exact absurd hc hne
  | cons r rs => rfl

/-- Witness for `overrideTextRendering` at a remote figure of 80 against a
local total of 100: the overridden cell text is exactly `"80.0"`. -/
theorem overrideTextRenderingWitness :
    reconcileRow (some ⟨some 80, none⟩) (mkRow sampleAddr 2 3 "100" 100) =
      Except.ok { mkRow sampleAddr 2 3 "100" 100 with
        total := { text := pyFloatStr 80, val := 80 } } :=
  (overrideTextRendering ⟨some 80, none⟩ (mkRow sampleAddr 2 3 "100" 100) 80 rfl).1
    (by decide)

/-! ## Claim C7 -/

lemma mem_foldl_exclusion (sources : List (List String)) (acc : Finset String) (a : String) :
    a ∈ sources.foldl
        (fun acc cells => acc ∪ ((sourceAddrs cells).map lowerString).toFinset) acc ↔
      a ∈ acc ∨ ∃ cells ∈ sources, a ∈ (sourceAddrs cells).map lowerString := by
  induction sources generalizing acc with
  | nil => simp
  | cons c cs ih =>
    simp only [List.foldl_cons, ih, Finset.mem_union, List.mem_toFinset,
      List.exists_mem_cons_iff]
    tauto

/-- Claim C7, counterexample.  The claim states that when a source cell
embeds multiple comma-joined addresses, all comma-separated components are
inserted.  The code (`df[0].str.split(',', expand=True)[0]`,
collect_unique_addresses.py line 26) keeps only the first component: from
the single cell `"0xA,0xB"` the set contains `"0xa"` but not `"0xb"`. -/
theorem exclusionSplitCounterexample :
    "0xa" ∈ buildExclusionSet [["0xA,0xB"]] ∧
    "0xb" ∉ buildExclusionSet [["0xA,0xB"]] := by
  constructor <;> decide

/-- Claim C7, amended: `buildExclusionSet` is the lower-cased union over
all sources of the extracted address strings, where extraction keeps only
the **first** comma-separated component of each cell whenever any cell of
that source contains a comma (cells of comma-free sources pass whole);
and the build is order-independent: sources `[A, B]` give the same set as
`[B, A]`. -/
theorem exclusionSetCharacterization :
    (∀ A B : List String, buildExclusionSet [A, B] = buildExclusionSet [B, A]) ∧
    (∀ (sources : List (List String)) (a : String),
      a ∈ buildExclusionSet sources ↔
        ∃ cells ∈ sources, a ∈ (sourceAddrs cells).map lowerString) := by
  constructor
  · intro A B
    ext x
    simp only [buildExclusionSet, mem_foldl_exclusion, Finset.not_mem_empty, false_or]
    constructor <;> rintro ⟨cells, hc, hm⟩ <;> refine ⟨cells, ?_, hm⟩ <;>
      simp only [List.mem_cons, List.not_mem_nil] at hc ⊢ <;> tauto
  · intro sources a
    simp only [buildExclusionSet, mem_foldl_exclusion, Finset.not_mem_empty, false_or]

/-! ## Claim C9 -/

lemma reconcile_total_le {remote : Option MinerStat} {r r2 : Row}
    (h : reconcileRow remote r = Except.ok r2) : r2.total.val ≤ r.total.val := by
  cases remote with
  | none =>
    injection h with h
    subst h
    exact le_refl _
  | some st =>
    simp only [reconcileRow] at h
    cases hj : jsonTotalTokens st with
    | error e => rw [hj] at h; exact absurd h (by simp)
    | ok j =>
      rw [hj] at h
      by_cases hc : j ≥ r.total.val
      · simp only [hc, if_pos, Except.ok.injEq] at h
        subst h
        exact le_refl _
      · simp only [hc, if_neg, ite_false, Except.ok.injEq] at h
        subst h
        exact (lt_of_not_ge hc).le

lemma bool_ne_true {b : Bool} (h : b = false) : ¬ (b = true) := by
  rw [h]
  simp

lemma allzero_total {r : Row} (h : hasAnyNonzeroReward r = false) : r.total.val = 0 := by
  simp [hasAnyNonzeroReward] at h
  tauto

lemma filteredData_cons (r : Row) (l : List Row) :
    filteredData (r :: l) =
      if (1 : ℚ) ≤ r.total.val then r :: filteredData l else filteredData l := by
  by_cases h : (1 : ℚ) ≤ r.total.val <;> simp [filteredData, List.filter_cons, h]

lemma processRows_cons_skip {uniq : List String} {statsOf : String → Option MinerStat}
    {r : Row} {rest : List Row}
    (h : isValidEthereumAddress (lowerString r.address) = false) :
    processRows uniq statsOf (r :: rest) = processRows uniq statsOf rest := by
  simp only [processRows]
  rw [if_neg (bool_ne_true h)]

lemma processRows_cons_excluded {uniq : List String} {statsOf : String → Option MinerStat}
    {r : Row} {rest : List Row}
    (hv : isValidEthereumAddress (lowerString r.address) = true)
    (hm : uniq.contains (lowerString r.address) = true) :
    processRows uniq statsOf (r :: rest) = processRows uniq statsOf rest := by
  simp only [processRows]
  rw [if_pos hv, if_pos hm]

lemma processRows_cons_active {uniq : List String} {statsOf : String → Option MinerStat}
    {r : Row} {rest : List Row}
    (hv : isValidEthereumAddress (lowerString r.address) = true)
    (hm : uniq.contains (lowerString r.address) = false) :
    processRows uniq statsOf (r :: rest) =
      match reconcileRow (statsOf (lowerString r.address)) r with
      | Except.error e => Except.error e
      | Except.ok row2 =>
        match processRows uniq statsOf rest with
        | Except.error e => Except.error e
        | Except.ok (rows, w, l, t) =>
          Except.ok (row2 :: rows, w + r.waifu.val, l + r.llama.val, t + row2.total.val) := by
  simp only [processRows]
  rw [if_pos hv, if_neg (bool_ne_true hm)]

lemma processRows_filter_ok (uniq : List String) (statsOf : String → Option MinerStat) :
    ∀ (rows processed : List Row) (w l t : ℚ),
      processRows uniq statsOf rows = Except.ok (processed, w, l, t) →
      ∃ processed2 w2 l2 t2,
        processRows uniq statsOf (rows.filter hasAnyNonzeroReward) =
          Except.ok (processed2, w2, l2, t2) ∧
        filteredData processed2 = filteredData processed := by
  intro rows
  induction rows with
  | nil =>
    intro processed w l t h
    simp only [processRows, Except.ok.injEq, Prod.mk.injEq] at h
    obtain ⟨h1, h2, h3, h4⟩ := h
    subst h1
    exact ⟨[], 0, 0, 0, rfl, rfl⟩
  | cons r rs ih =>
    intro processed w l t h
    by_cases hv : isValidEthereumAddress (lowerString r.address) = true
    · by_cases hm : uniq.contains (lowerString r.address) = true
      · rw [processRows_cons_excluded hv hm] at h
        obtain ⟨p2, w2, l2, t2, hp2, hfd⟩ := ih processed w l t h
        by_cases hg : hasAnyNonzeroReward r = true
        · refine ⟨p2, w2, l2, t2, ?_, hfd⟩
          rw [List.filter_cons_of_pos hg, processRows_cons_excluded hv hm]
          exact hp2
        · rw [List.filter_cons_of_neg hg]
          exact ⟨p2, w2, l2, t2, hp2, hfd⟩
      · have hm2 : uniq.contains (lowerString r.address) = false := Bool.eq_false_iff.mpr hm
        rw [processRows_cons_active hv hm2] at h
        cases hr : reconcileRow (statsOf (lowerString r.address)) r with
        | error e => rw [hr] at h; exact absurd h (by simp)
        | ok row2 =>
          rw [hr] at h
          cases hrest : processRows uniq statsOf rs with
          | error e => rw [hrest] at h; exact absurd h (by simp)
          | ok out =>
            obtain ⟨rows2, w2, l2, t2⟩ := out
            rw [hrest] at h
            simp only [Except.ok.injEq, Prod.mk.injEq] at h
            obtain ⟨h1, h2, h3, h4⟩ := h
            subst h1
            obtain ⟨p2, pw, pl, pt, hp2, hfd⟩ := ih rows2 w2 l2 t2 hrest
            by_cases hg : hasAnyNonzeroReward r = true
            · refine ⟨row2 :: p2, pw + r.waifu.val, pl + r.llama.val,
                pt + row2.total.val, ?_, ?_⟩
              · rw [List.filter_cons_of_pos hg, processRows_cons_active hv hm2, hr, hp2]
              · rw [filteredData_cons, filteredData_cons, hfd]
            · have hg2 : hasAnyNonzeroReward r = false := Bool.eq_false_iff.mpr hg
              have hle : row2.total.val ≤ 0 := allzero_total hg2 ▸ reconcile_total_le hr
              refine ⟨p2, pw, pl, pt, ?_, ?_⟩
              · rw [List.filter_cons_of_neg hg]
                exact hp2
              · rw [hfd, filteredData_cons,
                  if_neg (not_le.mpr (lt_of_le_of_lt hle zero_lt_one))]
    · have hv2 : isValidEthereumAddress (lowerString r.address) = false :=
        Bool.eq_false_iff.mpr hv
      rw [processRows_cons_skip hv2] at h
      obtain ⟨p2, w2, l2, t2, hp2, hfd⟩ := ih processed w l t h
      by_cases hg : hasAnyNonzeroReward r = true
      · refine ⟨p2, w2, l2, t2, ?_, hfd⟩
        rw [List.filter_cons_of_pos hg, processRows_cons_skip hv2]
        exact hp2
      · rw [List.filter_cons_of_neg hg]
        exact ⟨p2, w2, l2, t2, hp2, hfd⟩

/-- Claim C9 (confirmed): dropping candidates whose category reward values
and season-base total are all zero before reconciliation does not change
the final surviving set.  Whenever the unfiltered run completes with
surviving records `s`, the run over the guard-filtered candidate list also
completes with exactly `s`: an all-zero candidate can only keep total 0 or
be overridden by a smaller remote figure, so the threshold drops it
anyway. -/
theorem earlyAllZeroShortCircuitSound (uniq : List String)
    (statsOf : String → Option MinerStat) (rows s : List Row)
    (h : survivors uniq statsOf rows = Except.ok s) :
    survivors uniq statsOf (rows.filter hasAnyNonzeroReward) = Except.ok s := by
  unfold survivors at h ⊢
  cases hp : processRows uniq statsOf rows with
  | error e =>
    rw [hp] at h
    exact absurd h (by simp)
  | ok out =>
    obtain ⟨processed, w, l, t⟩ := out
    rw [hp] at h
    obtain ⟨p2, w2, l2, t2, hp2, hfd⟩ :=
      processRows_filter_ok uniq statsOf rows processed w l t hp
    rw [hp2]
    have h2 : filteredData processed = s := by
      injection h
    show Except.ok (filteredData p2) = Except.ok s
    rw [hfd, h2]

/-- Witness for `earlyAllZeroShortCircuitSound`: an all-zero candidate is
dropped by the guard, and the guarded run reproduces the empty surviving
set of the unfiltered run. -/
theorem earlyAllZeroShortCircuitSoundWitness :
    survivors [] (loadMinerStats [])
      ([mkRow sampleAddr 0 0 "0" 0].filter hasAnyNonzeroReward) = Except.ok [] :=
  earlyAllZeroShortCircuitSound [] (loadMinerStats []) [mkRow sampleAddr 0 0 "0" 0] [] rfl

end TokenAirdrop
